import Mathlib

/-!
Shallow embedding of the `contractai` backend (contract-review workflow engine)
and proofs about its caching, retry, text-compression, risk-aggregation and
stage-orchestration behaviour.

Python strings are modelled as `List Char`, machine time (`datetime.now()`) is
passed explicitly as a rational, floating-point arithmetic of the sources is
carried out in `ℚ`, and fallible calls (exceptions) are modelled with `Except`.
External black boxes (the remote LLM call, the md5 hash) appear as function
parameters, as the sources only use them through narrow interfaces.
-/

namespace ContractAI

/-- Python strings are modelled as lists of characters
(`len`/slicing act on characters, as in Python). -/
abbrev PyStr := List Char

/-- Decidable substring test: models Python's `kw in s` on strings. -/
def containsSub : PyStr → PyStr → Bool
  | n, [] => n.isEmpty
  | n, c :: t => n.isPrefixOf (c :: t) || containsSub n t

/-- Characters Python's `str.split()` treats as whitespace. -/
def pyIsSpace (c : Char) : Bool :=
  c = ' ' || c = '\t' || c = '\n' || c = '\r' || c = '\x0b' || c = '\x0c'

/-- Python `text.split()`: split on whitespace runs, dropping empty pieces. -/
def pySplitWs (t : PyStr) : List PyStr :=
  (t.splitOnP pyIsSpace).filter (· ≠ [])

/-- Python `sep.join(parts)`. -/
def pyJoin (sep : PyStr) (parts : List PyStr) : PyStr :=
  List.intercalate sep parts

/-- Python slice `t[a:-b]` (for `a ≥ 0`, `b ≥ 0`; `-0` is `0`, so `b = 0`
yields the empty slice `t[a:0]`). -/
def pySliceNeg (t : PyStr) (a b : ℕ) : PyStr :=
  if b = 0 then [] else (t.drop a).take (t.length - b - a)

/-- Python slice `t[-b:]` (`-0` is `0`, so `b = 0` yields all of `t`). -/
def pyTail (t : PyStr) (b : ℕ) : PyStr :=
  if b = 0 then t else t.drop (t.length - b)

/-- Python `int()` on a rational: truncation toward zero. -/
def pyInt (q : ℚ) : ℤ :=
  if 0 ≤ q then ⌊q⌋ else ⌈q⌉

/-- `Config.PROCESSING_CONFIG` fields used by `BaseAgent`
(source: `config.py`, `ProcessingConfigData`). -/
structure ProcessingConfig where
  max_text_length : ℕ
  min_text_length : ℕ
  enable_preprocessing : Bool
  enable_text_compression : Bool
  chunk_size : ℕ
deriving Repr, DecidableEq

/-- The repository's configured processing values (`config.py` lines 148-152). -/
def defaultProcessingConfig : ProcessingConfig :=
  { max_text_length := 50000
    min_text_length := 50
    enable_preprocessing := true
    enable_text_compression := true
    chunk_size := 2000 }

/-- `BaseAgent._preprocess_text`: whitespace normalisation
(`' '.join(text.split())`) then hard truncation at `max_text_length`. -/
def _preprocess_text (cfg : ProcessingConfig) (text : PyStr) : PyStr :=
  if !cfg.enable_preprocessing then text
  else
    let t := pyJoin [' '] (pySplitWs text)
    if cfg.max_text_length < t.length then t.take cfg.max_text_length else t

/-- The keyword list of `BaseAgent._compress_text`. -/
def importantKeywords : List PyStr :=
  ["风险".toList, "违约".toList, "责任".toList, "义务".toList, "权利".toList,
   "付款".toList, "价格".toList, "标准".toList, "要求".toList]

/-- `BaseAgent._compress_text`: keep the first `chunk_size` characters, up to
10 keyword-bearing sentences from the middle (`text[chunk_size:-chunk_size]`,
present only when `len(text) > 2*chunk_size`), and the last `chunk_size`
characters, joined with `'。'`. -/
def _compress_text (cfg : ProcessingConfig) (text : PyStr) : PyStr :=
  if !cfg.enable_text_compression then text
  else if text.length ≤ cfg.chunk_size then text
  else
    let cs := cfg.chunk_size
    let middle_text : PyStr :=
      if cs * 2 < text.length then pySliceNeg text cs cs else []
    let chunks : List PyStr := [text.take cs]
    let chunks :=
      if middle_text ≠ [] then
        chunks ++
          (((middle_text.splitOn '。').filter
              (fun s => importantKeywords.any (fun kw => containsSub kw s))).take 10)
      else chunks
    let chunks := if cs < text.length then chunks ++ [pyTail text cs] else chunks
    pyJoin ['。'] chunks

/-- One stored cache entry `key ↦ (value, expire_time)`; the list keeps dict
insertion order. -/
abbrev CacheEntries (V : Type) := List (String × V × ℚ)

/-- `SimpleCache` (source: `base_agent.py` lines 18-65). -/
structure SimpleCache (V : Type) where
  cache : CacheEntries V
  ttl : ℚ
  max_size : ℕ
  hits : ℕ
  misses : ℕ

/-- Dict lookup `self.cache[key]` / `key in self.cache`. -/
def lookupEntry (l : CacheEntries V) (k : String) : Option (V × ℚ) :=
  (l.find? (fun p => p.1 = k)).map (·.2)

/-- Dict deletion `del self.cache[key]` (keys are unique in a dict, so
removing the first occurrence is exact). -/
def eraseKey (l : CacheEntries V) (k : String) : CacheEntries V :=
  l.eraseP (fun p => p.1 = k)

/-- Dict assignment `self.cache[key] = v`: overwrite in place when the key is
present, append otherwise. -/
def insertEntry (l : CacheEntries V) (k : String) (v : V) (e : ℚ) :
    CacheEntries V :=
  if (l.find? (fun p => p.1 = k)).isSome then
    l.map (fun p => if p.1 = k then (k, v, e) else p)
  else l ++ [(k, v, e)]

/-- `min(self.cache.items(), key=lambda x: x[1][1])[0]`: the key of the first
entry with minimal expiry; `none` on an empty dict (Python raises
`ValueError`). -/
def minExpireKey (l : CacheEntries V) : Option String :=
  match l with
  | [] => none
  | x :: xs =>
      some (xs.foldl (fun best p => if p.2.2 < best.2.2 then p else best) x).1

/-- `SimpleCache.get` with the current wall-clock time passed explicitly. -/
def SimpleCache.get (c : SimpleCache V) (key : String) (now : ℚ) :
    Option V × SimpleCache V :=
  match lookupEntry c.cache key with
  | some (v, expire_time) =>
      if now < expire_time then (some v, { c with hits := c.hits + 1 })
      else (none, { c with cache := eraseKey c.cache key,
                           misses := c.misses + 1 })
  | none => (none, { c with misses := c.misses + 1 })

/-- `SimpleCache.set`: when `len(cache) >= max_size`, evict the entry with the
earliest expiry, then insert with expiry `now + ttl`. `none` models the
`ValueError` Python's `min` raises on an empty dict (reachable only when
`max_size = 0`). -/
def SimpleCache.set (c : SimpleCache V) (key : String) (v : V) (now : ℚ) :
    Option (SimpleCache V) :=
  if c.max_size ≤ c.cache.length then
    match minExpireKey c.cache with
    | none => none
    | some oldest_key =>
        some { c with cache := insertEntry (eraseKey c.cache oldest_key)
                                   key v (now + c.ttl) }
  else some { c with cache := insertEntry c.cache key v (now + c.ttl) }

/-- The record returned by `SimpleCache.stats`. -/
structure CacheStats where
  hits : ℕ
  misses : ℕ
  hit_rate : ℚ
  size : ℕ
deriving Repr, DecidableEq

/-- `SimpleCache.stats`. -/
def SimpleCache.stats (c : SimpleCache V) : CacheStats :=
  { hits := c.hits
    misses := c.misses
    hit_rate := if 0 < c.hits + c.misses
      then (c.hits : ℚ) / ((c.hits : ℚ) + (c.misses : ℚ)) else 0
    size := c.cache.length }

/-- One externally observable cache operation, with its wall-clock time. -/
inductive CacheOp (V : Type) where
  | get (key : String) (now : ℚ)
  | set (key : String) (v : V) (now : ℚ)

/-- Run one cache operation; a `set` that raises (empty-dict `min`) leaves the
cache unchanged. -/
def runOp (c : SimpleCache V) : CacheOp V → SimpleCache V
  | .get k t => (c.get k t).2
  | .set k v t => (c.set k v t).getD c

/-- Run a sequence of cache operations. -/
def runOps (c : SimpleCache V) (ops : List (CacheOp V)) : SimpleCache V :=
  ops.foldl runOp c

/-- The loop of the `retry_on_error` decorator (`base_agent.py` lines 99-121).
`f attempt s` is one invocation of the wrapped call (it may mutate the
carried state `s`); `remaining` counts the iterations left of
`for attempt in range(max_retries)`. Returns the outcome (`.error last`
models `raise last_exception`; `last = none` is the `raise None` of a
zero-attempt policy), the final state, the number of invocations made, and
the list of back-off sleeps performed (`time.sleep(delay * (attempt + 1))`,
executed only when `attempt < max_retries - 1`). -/
def retryLoop (f : ℕ → σ → Except E A × σ) (delay : ℚ) (max_retries : ℕ) :
    ℕ → ℕ → σ → Option E → List ℚ → Except (Option E) A × σ × ℕ × List ℚ
  | 0, attempt, s, last, sleeps => (.error last, s, attempt, sleeps.reverse)
  | remaining + 1, attempt, s, _last, sleeps =>
      match f attempt s with
      | (.ok a, s') => (.ok a, s', attempt + 1, sleeps.reverse)
      | (.error e, s') =>
          if attempt < max_retries - 1 then
            retryLoop f delay max_retries remaining (attempt + 1) s' (some e)
              ((delay * ((attempt : ℚ) + 1)) :: sleeps)
          else
            retryLoop f delay max_retries remaining (attempt + 1) s' (some e)
              sleeps

/-- `retry_on_error(max_retries, delay)` applied to a stateful call. -/
def retry_on_error (max_retries : ℕ) (delay : ℚ)
    (f : ℕ → σ → Except E A × σ) (s : σ) :
    Except (Option E) A × σ × ℕ × List ℚ :=
  retryLoop f delay max_retries max_retries 0 s none []

/-- The mutable `BaseAgent` state observable by the claims: the agent's cache
(`self.cache`, `none` when caching is disabled in the configuration) and a
count of invocations of the underlying remote LLM call (`self.llm.invoke`). -/
structure AgentState where
  cache : Option (SimpleCache PyStr)
  llmCalls : ℕ

/-- `BaseAgent._generate_cache_key`: md5 hex digest of the text with the
context, if any, concatenated. The md5 function itself is an external
library call, passed as a parameter. -/
def _generate_cache_key (md5 : PyStr → String) (text : PyStr)
    (context : Option PyStr) : String :=
  md5 (text ++ context.getD [])

/-- The preprocessing-and-compression pipeline `call_llm` applies to the
user message before the remote call (`base_agent.py` lines 246-249). -/
def processedMessage (cfg : ProcessingConfig) (user_message : PyStr) : PyStr :=
  let processed := _preprocess_text cfg user_message
  if cfg.enable_text_compression then _compress_text cfg processed
  else processed

/-- The message the `ValueError` of `min` on an empty dict renders to
(reachable only with a zero-capacity cache). -/
def emptyMinError : PyStr := "min() arg is an empty sequence".toList

/-- The miss path of one `call_llm` attempt: preprocess and compress, invoke
the remote LLM (a black-box parameter, indexed by the attempt number), and on
success store the result under `cache_key` when caching is on. -/
def call_llm_remote (cfg : ProcessingConfig) (md5 : PyStr → String)
    (llm : ℕ → PyStr → Except PyStr PyStr) (user_message : PyStr)
    (use_cache : Bool) (now : ℚ) (attempt : ℕ) (st : AgentState) :
    Except PyStr PyStr × AgentState :=
  let processed := processedMessage cfg user_message
  match llm attempt processed with
  | .error e => (.error e, { st with llmCalls := st.llmCalls + 1 })
  | .ok result =>
      let st' : AgentState := { st with llmCalls := st.llmCalls + 1 }
      match use_cache, st'.cache with
      | true, some c =>
          match c.set (_generate_cache_key md5 user_message none) result now with
          | some c' => (.ok result, { st' with cache := some c' })
          | none => (.error emptyMinError, { st' with cache := some c })
      | _, _ => (.ok result, st')

/-- One attempt of `call_llm` (`base_agent.py` lines 230-271): on a cache
lookup that yields a *truthy* value (Python `if cached_result:`), return it
without touching the LLM; otherwise fall through to the remote path. -/
def call_llm_attempt (cfg : ProcessingConfig) (md5 : PyStr → String)
    (llm : ℕ → PyStr → Except PyStr PyStr) (user_message : PyStr)
    (use_cache : Bool) (now : ℚ) (attempt : ℕ) (st : AgentState) :
    Except PyStr PyStr × AgentState :=
  match use_cache, st.cache with
  | true, some c =>
      let key := _generate_cache_key md5 user_message none
      match c.get key now with
      | (some v, c') =>
          if v ≠ [] then (.ok v, { st with cache := some c' })
          else call_llm_remote cfg md5 llm user_message use_cache now attempt
            { st with cache := some c' }
      | (none, c') =>
          call_llm_remote cfg md5 llm user_message use_cache now attempt
            { st with cache := some c' }
  | _, _ => call_llm_remote cfg md5 llm user_message use_cache now attempt st

/-- `call_llm`: one attempt wrapped in `@retry_on_error(max_retries=3,
delay=1.0)`. -/
def call_llm (cfg : ProcessingConfig) (md5 : PyStr → String)
    (llm : ℕ → PyStr → Except PyStr PyStr) (user_message : PyStr)
    (use_cache : Bool) (now : ℚ) (st : AgentState) :
    Except (Option PyStr) PyStr × AgentState × ℕ × List ℚ :=
  retry_on_error 3 1
    (fun attempt s =>
      call_llm_attempt cfg md5 llm user_message use_cache now attempt s) st

/-- The canned reply for inputs shorter than `min_text_length`. -/
def tooShortReply : PyStr := "输入文本过短，请提供更多内容以进行分析。".toList

/-- The prefix of the error reply rendered by the `except` clause of
`process_text_message`. -/
def processErrorPrefix : PyStr := "处理消息时发生错误：".toList

/-- `str(e)` for the `TypeError` raised by `raise None` (unreachable here
because `call_llm` uses `max_retries = 3`, but the rendering must be total). -/
def raiseNoneMessage : PyStr :=
  "exceptions must derive from BaseException".toList

/-- The combination of text and context built by `process_text_message`. -/
def fullText (user_text context : PyStr) : PyStr :=
  if context ≠ [] then
    "上下文信息：\n".toList ++ context ++ "\n\n待分析内容：\n".toList ++ user_text
  else user_text

/-- `BaseAgent.process_text_message` (`base_agent.py` lines 274-298): length
validation, context combination, the retried LLM call, and the `except`
clause that renders any escaped exception as an error string. -/
def process_text_message (cfg : ProcessingConfig) (md5 : PyStr → String)
    (llm : ℕ → PyStr → Except PyStr PyStr) (user_text context : PyStr)
    (now : ℚ) (st : AgentState) : PyStr × AgentState :=
  if user_text.length < cfg.min_text_length then (tooShortReply, st)
  else
    let res := call_llm cfg md5 llm (fullText user_text context) true now st
    match res.1 with
    | .ok v => (v, res.2.1)
    | .error (some e) => (processErrorPrefix ++ e, res.2.1)
    | .error none => (processErrorPrefix ++ raiseNoneMessage, res.2.1)

/-- `dict.get(k, default)` on an association list with unique keys. -/
def dictGet (d : List (PyStr × α)) (k : PyStr) (dflt : α) : α :=
  ((d.find? (fun p => p.1 = k)).map (·.2)).getD dflt

/-- `IntegrationAgent.calculate_overall_risk_score`
(`integration_agent.py` lines 582-596): base score 3, plus 2 per
legal-compliance risk, 1.5 per financial risk and 1 per risk of any other
category, truncated with `int()` and capped at 10. The input is the
category-keyed risk dict, modelled as an association list. -/
def calculate_overall_risk_score (risks : List (PyStr × List PyStr)) : ℤ :=
  min (pyInt (risks.foldl
    (fun acc p =>
      if p.1 = "legal_compliance_risks".toList then acc + (p.2.length : ℚ) * 2
      else if p.1 = "financial_risks".toList then
        acc + (p.2.length : ℚ) * (3 / 2)
      else acc + (p.2.length : ℚ)) 3)) 10

/-- A risk item as built by `identify_high_risk_items`:
`{"category": …, "description": …, "severity": …}`. -/
structure Risk where
  category : PyStr
  description : PyStr
  severity : PyStr
deriving Repr, DecidableEq, Inhabited

/-- `IntegrationAgent.identify_high_risk_items`
(`integration_agent.py` lines 607-628): every legal-compliance risk is
appended with severity 高, and every financial risk whose text contains
保证金 is appended with severity 高. No deduplication is performed. -/
def identify_high_risk_items (risks : List (PyStr × List PyStr)) : List Risk :=
  ((dictGet risks "legal_compliance_risks".toList []).map
      (fun r => ⟨"法律合规风险".toList, r, "高".toList⟩))
    ++ (((dictGet risks "financial_risks".toList []).filter
          (fun r => containsSub "保证金".toList r)).map
        (fun r => ⟨"财务风险".toList, r, "高".toList⟩))

/-- Modelled from the spec: the deduplication fingerprint of a Risk —
`lowercase(category + first 50 chars of description + severity)` — which the
spec's Risk Aggregator uses; the source has no such mechanism, and this
definition exists only to compare the stored risks against the spec's
invariant. -/
def fingerprintSpec (r : Risk) : PyStr :=
  (r.category ++ r.description.take 50 ++ r.severity).map Char.toLower

/-- Modelled from the spec: `score()` of the spec's Risk Aggregator,
`min(round((3*|high| + 1.5*|medium| + 0.5*|low|) / 2), 10)` over the
severity buckets of the deduplicated risk set; stated only to compare with
the source's `calculate_overall_risk_score`. -/
def riskScoreSpec (high medium low : ℕ) : ℤ :=
  min (round ((3 * (high : ℚ) + 3 / 2 * (medium : ℚ) + 1 / 2 * (low : ℚ)) / 2))
    10

deriving instance DecidableEq for Except

/-- The dict `DocumentProcessingAgent.process_text_message` returns
(`document_agent.py` lines 345-361) — the agent's ONLY channel: it catches
every exception internally and reports failure by *returning*
`status = "error"` with a `message`, never by raising. The fields the
coordinator can observe are modelled (`status` is the analyzer's error
indicator; `response_text` is what `_extract_key_info` summarises; `message`
carries the error text, empty on success); `agent`, `analysis` and
`timestamp` are read nowhere in the coordinator and are omitted. -/
structure DocAgentReply where
  status : PyStr
  message : PyStr
  response_text : PyStr
deriving Repr, DecidableEq

/-- The workflow state threaded through the coordinator's stages
(`coordinator.py`); the LangGraph dict is modelled as a structure holding
the fields the stages read and write. `document_result` is `none` before the
document stage runs, then `some (.ok reply)` for any dict the analyzer
*returned* (success or error status alike), or `some (.error msg)` for the
coordinator's own except-branch dict `{"status": "error", "message":
str(e)}` built when the invocation raised. -/
structure WorkflowState where
  user_input : PyStr
  workflow_plan : PyStr
  use_compression : Bool
  context_summary : PyStr
  document_result : Option (Except PyStr DocAgentReply)
  legal_result : PyStr
  business_result : PyStr
  final_response : PyStr
  error : Option PyStr
deriving Repr, DecidableEq

/-- The initial state `graph.invoke` is given
(`coordinator.py` lines 422-429). -/
def initState (user_input : PyStr) : WorkflowState :=
  { user_input := user_input
    workflow_plan := []
    use_compression := false
    context_summary := []
    document_result := none
    legal_result := []
    business_result := []
    final_response := []
    error := none }

/-- `ContractCoordinator.plan_workflow` (`coordinator.py` lines 121-151):
pick a strategy by input length, set the compression flag, clear `error`. -/
def plan_workflow (s : WorkflowState) : WorkflowState :=
  let input_length := s.user_input.length
  let plan : PyStr × Bool :=
    if input_length < 1000 then ("快速处理".toList, false)
    else if input_length < 10000 then ("标准处理".toList, false)
    else ("分块处理".toList, true)
  { s with workflow_plan := plan.1, use_compression := plan.2, error := none }

/-- `ContractCoordinator._extract_key_info` on a string result
(`coordinator.py` lines 225-227): truncate to 1000 characters. -/
def _extract_key_info (result : PyStr) : PyStr :=
  if 1000 < result.length then result.take 1000 else result

/-- The text actually handed to the document analyzer: the user input,
compressed first when the plan set `use_compression`. -/
def documentStageInput (cfg : ProcessingConfig) (s : WorkflowState) : PyStr :=
  if s.use_compression then _compress_text cfg s.user_input else s.user_input

/-- `ContractCoordinator._extract_key_info` (`coordinator.py` lines 206-233)
applied to a document-agent reply dict: none of the four allow-listed key
fields (`key_points`, `summary`, `risk_areas`, `important_clauses`) is a key
of such a reply, so the extraction keeps only
`summary := response_text[:1000]`, serialised by the external `json.dumps`
(passed as a black box). -/
def _extract_key_info_reply (jsonDumps : List (PyStr × PyStr) → PyStr)
    (r : DocAgentReply) : PyStr :=
  jsonDumps [("summary".toList,
    if 1000 < r.response_text.length then r.response_text.take 1000
    else r.response_text)]

/-- `ContractCoordinator.run_document_agent_optimized`
(`coordinator.py` lines 153-204). The document analyzer is a black box
`PyStr → Except PyStr DocAgentReply`: `.ok reply` is a *returned* dict — the
only channel `DocumentProcessingAgent` ever uses, whatever its `status`
field says — and `.error` is a *raised* exception, which only the
coordinator's own try/except produces or handles (e.g. the `ValueError` for
an unavailable agent, modelled by `document_agent = none`). Any returned
reply, error status included, takes the success path: the coordinator never
inspects `reply.status`, summarises the reply into `context_summary`, and
clears `state.error`. Only a raised exception is recorded into
`state.error`. -/
def run_document_agent_optimized (cfg : ProcessingConfig)
    (jsonDumps : List (PyStr × PyStr) → PyStr)
    (document_agent : Option (PyStr → Except PyStr DocAgentReply))
    (s : WorkflowState) : WorkflowState :=
  match document_agent with
  | none =>
      { s with document_result := some (.error "文档处理智能体不可用".toList)
               context_summary := []
               error := some "文档处理智能体不可用".toList }
  | some agent =>
      match agent (documentStageInput cfg s) with
      | .ok result =>
          { s with document_result := some (.ok result)
                   context_summary := _extract_key_info_reply jsonDumps result
                   error := none }
      | .error e =>
          { s with document_result := some (.error e)
                   context_summary := []
                   error := some e }

/-- The placeholder both branches receive when an upstream error is
detected. -/
def skippedUpstream : PyStr := "因上游错误跳过".toList

/-- One fanned-out branch of the parallel stage: the analyzer's returned
value, or — when `_safe_agent_invoke` re-raised and `future.result` threw —
the captured `Error: ` string for that branch's slot. -/
def parallelBranchResult (agent : PyStr → Except PyStr PyStr)
    (text : PyStr) : PyStr :=
  match agent text with
  | .ok r => r
  | .error e => "Error: ".toList ++ e

/-- `ContractCoordinator.run_parallel_agents_optimized`
(`coordinator.py` lines 235-308). Besides the updated state it returns the
list of analyzers actually invoked. With `state.error` set, the stage
returns the skip placeholders before submitting any work; otherwise both
analyzers are submitted, a missing analyzer raises (caught into `Error:`
results), and each branch's failure is captured into its own slot. -/
def run_parallel_agents_optimized
    (legal_agent business_agent : Option (PyStr → Except PyStr PyStr))
    (s : WorkflowState) : WorkflowState × List PyStr :=
  match s.error with
  | some _ =>
      ({ s with legal_result := skippedUpstream
                business_result := skippedUpstream }, [])
  | none =>
      match legal_agent, business_agent with
      | some la, some ba =>
          ({ s with legal_result := parallelBranchResult la s.context_summary
                    business_result := parallelBranchResult ba s.context_summary },
            ["legal".toList, "business".toList])
      | _, _ =>
          ({ s with legal_result := "Error: 分析智能体不可用".toList
                    business_result := "Error: 分析智能体不可用".toList }, [])

/-- A concrete error reply of the document analyzer: exactly the dict
`DocumentProcessingAgent.process_text_message` returns from its except
clause (`document_agent.py` lines 355-361). -/
def docErrorReplyCE : DocAgentReply :=
  ⟨"error".toList, "招标文件处理过程中发生错误：boom".toList,
   "招标文件处理过程中发生错误。".toList⟩

/-- The document stage run on the concrete input `"abc"` with an analyzer
that returns `docErrorReplyCE` (its status-"error" channel). -/
def docStageCE : WorkflowState :=
  run_document_agent_optimized defaultProcessingConfig (fun _ => "J".toList)
    (some (fun _ => .ok docErrorReplyCE)) (plan_workflow (initState "abc".toList))

/-- Total risk count of the `legal_compliance_risks` entries of the dict. -/
def legalCount (risks : List (PyStr × List PyStr)) : ℕ :=
  (((risks.filter (fun p => p.1 = "legal_compliance_risks".toList)).map
      (fun p => p.2.length)).sum)

/-- Total risk count of the `financial_risks` entries of the dict. -/
def financialCount (risks : List (PyStr × List PyStr)) : ℕ :=
  (((risks.filter (fun p => p.1 = "financial_risks".toList)).map
      (fun p => p.2.length)).sum)

/-- Total risk count of all remaining categories of the dict. -/
def otherCount (risks : List (PyStr × List PyStr)) : ℕ :=
  (((risks.filter (fun p => p.1 ≠ "legal_compliance_risks".toList ∧
        p.1 ≠ "financial_risks".toList)).map
      (fun p => p.2.length)).sum)

lemma legalCount_cons (p : PyStr × List PyStr) (t : List (PyStr × List PyStr)) :
    legalCount (p :: t)
      = (if p.1 = "legal_compliance_risks".toList then p.2.length else 0)
        + legalCount t := by
  simp only [legalCount, List.filter_cons]
  split
  · rename_i h
    rw [if_pos (of_decide_eq_true h)]
    simp
  · rename_i h
    rw [if_neg (fun hc => h (decide_eq_true hc))]
    simp

lemma financialCount_cons (p : PyStr × List PyStr)
    (t : List (PyStr × List PyStr)) :
    financialCount (p :: t)
      = (if p.1 = "financial_risks".toList then p.2.length else 0)
        + financialCount t := by
  simp only [financialCount, List.filter_cons]
  split
  · rename_i h
    rw [if_pos (of_decide_eq_true h)]
    simp
  · rename_i h
    rw [if_neg (fun hc => h (decide_eq_true hc))]
    simp

lemma otherCount_cons (p : PyStr × List PyStr) (t : List (PyStr × List PyStr)) :
    otherCount (p :: t)
      = (if p.1 ≠ "legal_compliance_risks".toList ∧
            p.1 ≠ "financial_risks".toList then p.2.length else 0)
        + otherCount t := by
  simp only [otherCount, List.filter_cons]
  split
  · rename_i h
    rw [if_pos (of_decide_eq_true h)]
    simp
  · rename_i h
    rw [if_neg (fun hc => h (decide_eq_true hc))]
    simp

lemma score_foldl_eq (risks : List (PyStr × List PyStr)) : ∀ a : ℚ,
    risks.foldl
      (fun acc p =>
        if p.1 = "legal_compliance_risks".toList then
          acc + (p.2.length : ℚ) * 2
        else if p.1 = "financial_risks".toList then
          acc + (p.2.length : ℚ) * (3 / 2)
        else acc + (p.2.length : ℚ)) a
      = a + 2 * legalCount risks + (3 / 2) * financialCount risks
          + otherCount risks := by
  have hLF : ("legal_compliance_risks".toList : PyStr)
      ≠ "financial_risks".toList := by decide
  induction risks with
  | nil => intro a; simp [legalCount, financialCount, otherCount]
  | cons p t ih =>
      intro a
      rw [List.foldl_cons, legalCount_cons, financialCount_cons,
        otherCount_cons]
      by_cases hL : p.1 = "legal_compliance_risks".toList
      · rw [if_pos hL, ih, if_pos hL,
          if_neg (show ¬ p.1 = "financial_risks".toList by rw [hL]; exact hLF),
          if_neg (fun h => h.1 hL)]
        push_cast
        ring
      · by_cases hF : p.1 = "financial_risks".toList
        · rw [if_neg hL, if_pos hF, ih, if_neg hL, if_pos hF,
            if_neg (fun h => h.2 hF)]
          push_cast
          ring
        · rw [if_neg hL, if_neg hF, ih, if_neg hL, if_neg hF,
            if_pos (And.intro hL hF)]
          push_cast
          ring

lemma pyInt_of_nonneg {q : ℚ} (h : 0 ≤ q) : pyInt q = ⌊q⌋ := if_pos h

/-- C1 (amended): the overall risk score of `calculate_overall_risk_score`
equals `min(⌊3 + 2·|legal_compliance| + 1.5·|financial| + Σ|other|⌋, 10)`,
where the counts are per risk *category* (legal-compliance and financial
categories weighted 2 and 1.5, every other category weighted 1) with no
deduplication, no severity buckets, no halving, and a base score of 3. -/
theorem overall_risk_score_closed_form (risks : List (PyStr × List PyStr)) :
    calculate_overall_risk_score risks
      = min ⌊(3 : ℚ) + 2 * legalCount risks + (3 / 2) * financialCount risks
              + otherCount risks⌋ 10 := by
  unfold calculate_overall_risk_score
  rw [score_foldl_eq risks 3, pyInt_of_nonneg]
  positivity

/-- C1 (counterexample): on the empty risk collection (all buckets empty,
dedup vacuous) the source computes 3 (its base score), while the claimed
formula `min(round((3·|high| + 1.5·|medium| + 0.5·|low|)/2), 10)` yields 0. -/
theorem overall_risk_score_spec_mismatch :
    calculate_overall_risk_score [] ≠ riskScoreSpec 0 0 0 := by
  simp [calculate_overall_risk_score, riskScoreSpec, pyInt]

/-- C2 (amended): the aggregation performs no fingerprint deduplication:
`identify_high_risk_items` stores one item per legal-compliance risk and one
per 保证金-bearing financial risk, duplicates included, so its length is the
sum of those two counts. -/
theorem high_risk_items_no_dedup (risks : List (PyStr × List PyStr)) :
    (identify_high_risk_items risks).length
      = (dictGet risks "legal_compliance_risks".toList []).length
        + ((dictGet risks "financial_risks".toList []).filter
            (fun r => containsSub "保证金".toList r)).length := by
  simp [identify_high_risk_items]

/-- C2 (counterexample): feeding the same legal-compliance risk twice stores
two items, not one, and the two stored items have the same fingerprint
(lowercase of category + first 50 characters of description + severity). -/
theorem high_risk_items_duplicate_fingerprints :
    (identify_high_risk_items
        [("legal_compliance_risks".toList,
          ["重复".toList, "重复".toList])]).length ≠ 1 ∧
    fingerprintSpec ((identify_high_risk_items
        [("legal_compliance_risks".toList,
          ["重复".toList, "重复".toList])]).getD 0 default)
      = fingerprintSpec ((identify_high_risk_items
        [("legal_compliance_risks".toList,
          ["重复".toList, "重复".toList])]).getD 1 default) := by
  decide

/-- C8: an input shorter than `min_text_length` draws the canned
insufficient-input reply and leaves the agent state (its cache and its count
of remote LLM invocations) untouched: the remote call is never made. -/
theorem short_input_returns_canned_reply (cfg : ProcessingConfig)
    (md5 : PyStr → String) (llm : ℕ → PyStr → Except PyStr PyStr)
    (user_text context : PyStr) (now : ℚ) (st : AgentState)
    (h : user_text.length < cfg.min_text_length) :
    process_text_message cfg md5 llm user_text context now st
      = (tooShortReply, st) := by
  unfold process_text_message
  rw [if_pos h]

/-- C8 witness. -/
theorem short_input_returns_canned_reply_witness :
    ("hi".toList.length < defaultProcessingConfig.min_text_length) ∧
    process_text_message defaultProcessingConfig (fun _ => "")
        (fun _ _ => .ok []) "hi".toList [] 0 ⟨none, 0⟩
      = (tooShortReply, ⟨none, 0⟩) :=
  ⟨by decide,
   short_input_returns_canned_reply defaultProcessingConfig (fun _ => "")
     (fun _ _ => .ok []) "hi".toList [] 0 ⟨none, 0⟩ (by decide)⟩

/-- C10: whenever the text's length lies strictly between `chunk_size` and
`2*chunk_size` (and compression is enabled), `_compress_text` returns the
first `chunk_size` characters joined with the last `chunk_size` characters by
`'。'` — the two windows overlap, the output has length `2*chunk_size + 1`,
strictly longer than the input, and is still returned as the compressed
result. -/
theorem compress_expands_overlapping_windows (cfg : ProcessingConfig)
    (text : PyStr) (henc : cfg.enable_text_compression = true)
    (h1 : cfg.chunk_size < text.length)
    (h2 : text.length < 2 * cfg.chunk_size) :
    _compress_text cfg text
      = text.take cfg.chunk_size
          ++ '。' :: text.drop (text.length - cfg.chunk_size)
    ∧ text.length < (_compress_text cfg text).length := by
  have hcs : cfg.chunk_size ≠ 0 := by omega
  have heq : _compress_text cfg text
      = text.take cfg.chunk_size
          ++ '。' :: text.drop (text.length - cfg.chunk_size) := by
    unfold _compress_text
    rw [henc]
    simp only [Bool.not_true, Bool.false_eq_true, if_false]
    rw [if_neg (by omega)]
    rw [if_neg (show ¬ cfg.chunk_size * 2 < text.length by omega)]
    simp only [ne_eq, not_true_eq_false, if_false, if_pos h1]
    rw [pyTail, if_neg hcs]
    simp [pyJoin, List.intercalate, List.intersperse]
  refine ⟨heq, ?_⟩
  rw [heq]
  have hlt : cfg.chunk_size ≤ text.length := le_of_lt h1
  simp only [List.length_append, List.length_take, List.length_cons,
    List.length_drop]
  omega

/-- C10 witness. -/
theorem compress_expands_overlapping_windows_witness :
    (({ max_text_length := 50000, min_text_length := 50,
        enable_preprocessing := true, enable_text_compression := true,
        chunk_size := 2 } : ProcessingConfig).enable_text_compression = true) ∧
    (2 < "abc".toList.length) ∧ ("abc".toList.length < 2 * 2) ∧
    (_compress_text
        { max_text_length := 50000, min_text_length := 50,
          enable_preprocessing := true, enable_text_compression := true,
          chunk_size := 2 } "abc".toList
      = "abc".toList.take 2 ++ '。' :: "abc".toList.drop ("abc".toList.length - 2)
    ∧ "abc".toList.length
        < (_compress_text
            { max_text_length := 50000, min_text_length := 50,
              enable_preprocessing := true, enable_text_compression := true,
              chunk_size := 2 } "abc".toList).length) :=
  ⟨rfl, by decide, by decide,
   compress_expands_overlapping_windows _ _ rfl (by decide) (by decide)⟩

lemma lookupEntry_eraseKey_self {V : Type} (l : CacheEntries V) (k : String)
    (hnd : (l.map (·.1)).Nodup) : lookupEntry (eraseKey l k) k = none := by
  induction l with
  | nil => rfl
  | cons p t ih =>
      rw [List.map_cons, List.nodup_cons] at hnd
      by_cases hp : p.1 = k
      · have he : eraseKey (p :: t) k = t := by
          simp [eraseKey, List.eraseP_cons, hp]
        rw [he, lookupEntry, List.find?_eq_none.mpr, Option.map_none']
        intro q hq
        simp only [decide_eq_true_eq]
        intro hqk
        have hmem : q.1 ∈ t.map (·.1) := List.mem_map_of_mem (·.1) hq
        rw [hqk, ← hp] at hmem
        exact hnd.1 hmem
      · have he : eraseKey (p :: t) k = p :: eraseKey t k := by
          simp [eraseKey, List.eraseP_cons, hp]
        rw [he, lookupEntry, List.find?_cons_of_neg _ (by simp [hp])]
        exact ih hnd.2

lemma length_eraseKey_add_one {V : Type} (l : CacheEntries V) (k : String)
    (h : (l.find? (fun p => p.1 = k)).isSome) :
    (eraseKey l k).length + 1 = l.length := by
  obtain ⟨q, hq, hqk⟩ := List.find?_isSome.mp h
  have hany : l.any (fun p => decide (p.1 = k)) = true :=
    List.any_eq_true.mpr ⟨q, hq, hqk⟩
  have hpos : 0 < l.length := List.length_pos.mpr (List.ne_nil_of_mem hq)
  rw [eraseKey, List.length_eraseP, if_pos hany]
  omega

lemma minExpireFold_spec {V : Type} (xs : List (String × V × ℚ)) :
    ∀ x : String × V × ℚ,
      (xs.foldl (fun best p => if p.2.2 < best.2.2 then p else best) x) ∈ x :: xs
      ∧ ∀ p ∈ x :: xs,
          (xs.foldl (fun best p => if p.2.2 < best.2.2 then p else best) x).2.2
            ≤ p.2.2 := by
  induction xs with
  | nil =>
      intro x
      refine ⟨List.mem_singleton.mpr rfl, ?_⟩
      intro p hp
      rw [List.mem_singleton] at hp
      subst hp
      exact le_rfl
  | cons y ys ih =>
      intro x
      rw [List.foldl_cons]
      obtain ⟨ihmem, ihle⟩ := ih (if y.2.2 < x.2.2 then y else x)
      have hzx : (if y.2.2 < x.2.2 then y else x).2.2 ≤ x.2.2 := by
        by_cases h : y.2.2 < x.2.2
        · rw [if_pos h]; exact le_of_lt h
        · rw [if_neg h]
      have hzy : (if y.2.2 < x.2.2 then y else x).2.2 ≤ y.2.2 := by
        by_cases h : y.2.2 < x.2.2
        · rw [if_pos h]
        · rw [if_neg h]; exact not_lt.mp h
      have hbz := ihle _ (List.mem_cons_self _ _)
      constructor
      · rcases List.mem_cons.mp ihmem with h | h
        · rw [h]
          by_cases hc : y.2.2 < x.2.2
          · rw [if_pos hc]
            exact List.mem_cons_of_mem _ (List.mem_cons_self _ _)
          · rw [if_neg hc]
            exact List.mem_cons_self _ _
        · exact List.mem_cons_of_mem _ (List.mem_cons_of_mem _ h)
      · intro p hp
        rcases List.mem_cons.mp hp with h | h
        · subst h
          exact le_trans hbz hzx
        · rcases List.mem_cons.mp h with h' | h'
          · subst h'
            exact le_trans hbz hzy
          · exact ihle p (List.mem_cons_of_mem _ h')

lemma minExpireKey_spec {V : Type} (l : CacheEntries V) (hne : l ≠ []) :
    ∃ k val exp, (k, val, exp) ∈ l ∧ minExpireKey l = some k
      ∧ ∀ p ∈ l, exp ≤ p.2.2 := by
  match l with
  | [] => exact absurd rfl hne
  | x :: xs =>
      obtain ⟨hm, hle⟩ := minExpireFold_spec xs x
      rcases hfold : xs.foldl (fun best p => if p.2.2 < best.2.2 then p else best) x
        with ⟨bk, bv, be⟩
      rw [hfold] at hm hle
      refine ⟨bk, bv, be, hm, ?_, hle⟩
      simp only [minExpireKey]
      rw [hfold]

lemma length_insertEntry {V : Type} (l : CacheEntries V) (k : String) (v : V)
    (e : ℚ) :
    (insertEntry l k v e).length
      = if (l.find? (fun p => p.1 = k)).isSome then l.length
        else l.length + 1 := by
  unfold insertEntry
  split
  · simp
  · simp

lemma length_eraseKey_le {V : Type} (l : CacheEntries V) (k : String) :
    (eraseKey l k).length ≤ l.length := by
  rw [eraseKey, List.length_eraseP]
  split
  · omega
  · exact le_rfl

lemma runOp_preserves {V : Type} (c : SimpleCache V) (op : CacheOp V)
    (h : c.cache.length ≤ c.max_size) :
    (runOp c op).cache.length ≤ c.max_size
      ∧ (runOp c op).max_size = c.max_size := by
  cases op with
  | get k t =>
      simp only [runOp, SimpleCache.get]
      cases hl : lookupEntry c.cache k with
      | none => exact ⟨h, rfl⟩
      | some ve =>
          rcases ve with ⟨v, exp⟩
          dsimp only
          by_cases ht : t < exp
          · rw [if_pos ht]
            exact ⟨h, rfl⟩
          · rw [if_neg ht]
            exact ⟨le_trans (length_eraseKey_le _ _) h, rfl⟩
  | set k v t =>
      simp only [runOp, SimpleCache.set]
      by_cases hm : c.max_size ≤ c.cache.length
      · rw [if_pos hm]
        cases hmin : minExpireKey c.cache with
        | none => exact ⟨h, rfl⟩
        | some kk =>
            dsimp only [Option.getD_some]
            have hne : c.cache ≠ [] := by
              intro h0
              rw [h0] at hmin
              exact Option.noConfusion hmin
            obtain ⟨k', val, exp, hmem, hmin', _⟩ := minExpireKey_spec c.cache hne
            rw [hmin] at hmin'
            have hkk : k' = kk := Option.some.inj hmin'.symm
            subst hkk
            have hfind : (c.cache.find? (fun p => p.1 = k')).isSome :=
              List.find?_isSome.mpr ⟨(k', val, exp), hmem, by simp⟩
            have hlen := length_eraseKey_add_one c.cache k' hfind
            have hins := length_insertEntry (eraseKey c.cache k') k v (t + c.ttl)
            refine ⟨?_, rfl⟩
            rw [hins]
            split
            · omega
            · omega
      · rw [if_neg hm]
        have hins := length_insertEntry c.cache k v (t + c.ttl)
        refine ⟨?_, rfl⟩
        dsimp only [Option.getD_some]
        rw [hins]
        split
        · exact h
        · omega

lemma runOps_length_le {V : Type} (ops : List (CacheOp V)) :
    ∀ c : SimpleCache V, c.cache.length ≤ c.max_size →
      (runOps c ops).cache.length ≤ c.max_size := by
  induction ops with
  | nil => intro c h; exact h
  | cons op rest ih =>
      intro c h
      obtain ⟨h1, h2⟩ := runOp_preserves c op h
      rw [← h2] at h1
      have h3 := ih (runOp c op) h1
      rw [h2] at h3
      simpa [runOps, List.foldl_cons] using h3

/-- C5: on a cache holding exactly `maxEntries` (positive) entries, `set`
evicts exactly one entry — the one with the smallest `expiresAt` (the first
such in insertion order) — before inserting; and starting from any cache
within its bound, no sequence of get/set operations ever pushes the size
past `maxEntries`. -/
theorem set_on_full_cache_evicts_min_expiry {V : Type} (c : SimpleCache V)
    (key : String) (v : V) (now : ℚ)
    (hfull : c.cache.length = c.max_size) (hpos : 0 < c.max_size) :
    (∃ k val exp, (k, val, exp) ∈ c.cache ∧ minExpireKey c.cache = some k ∧
       (∀ p ∈ c.cache, exp ≤ p.2.2) ∧
       c.set key v now = some { c with cache := insertEntry (eraseKey c.cache k) key v (now + c.ttl) } ∧
       (eraseKey c.cache k).length + 1 = c.cache.length) ∧
    (∀ (c₂ : SimpleCache V) (ops : List (CacheOp V)),
       c₂.cache.length ≤ c₂.max_size →
       (runOps c₂ ops).cache.length ≤ c₂.max_size) := by
  constructor
  · have hne : c.cache ≠ [] := by
      intro h0
      rw [h0] at hfull
      simp only [List.length_nil] at hfull
      omega
    obtain ⟨k, val, exp, hmem, hmin, hle⟩ := minExpireKey_spec c.cache hne
    refine ⟨k, val, exp, hmem, hmin, hle, ?_, ?_⟩
    · unfold SimpleCache.set
      rw [if_pos (le_of_eq hfull.symm), hmin]
    · exact length_eraseKey_add_one c.cache k
        (List.find?_isSome.mpr ⟨(k, val, exp), hmem, by simp⟩)
  · intro c₂ ops h
    exact runOps_length_le ops c₂ h

/-- C5 witness. -/
theorem set_on_full_cache_evicts_min_expiry_witness :
    ((⟨[("a", 0, 5), ("b", 1, 3)], 1, 2, 0, 0⟩ : SimpleCache ℕ).cache.length = (⟨[("a", 0, 5), ("b", 1, 3)], 1, 2, 0, 0⟩ : SimpleCache ℕ).max_size) ∧
    (0 < (⟨[("a", 0, 5), ("b", 1, 3)], 1, 2, 0, 0⟩ : SimpleCache ℕ).max_size) ∧
    ((∃ k val exp,
        (k, val, exp) ∈ (⟨[("a", 0, 5), ("b", 1, 3)], 1, 2, 0, 0⟩ : SimpleCache ℕ).cache ∧
        minExpireKey (⟨[("a", 0, 5), ("b", 1, 3)], 1, 2, 0, 0⟩ : SimpleCache ℕ).cache = some k ∧
        (∀ p ∈ (⟨[("a", 0, 5), ("b", 1, 3)], 1, 2, 0, 0⟩ : SimpleCache ℕ).cache, exp ≤ p.2.2) ∧
        (⟨[("a", 0, 5), ("b", 1, 3)], 1, 2, 0, 0⟩ : SimpleCache ℕ).set "c" 9 0 = some { (⟨[("a", 0, 5), ("b", 1, 3)], 1, 2, 0, 0⟩ : SimpleCache ℕ) with cache := insertEntry (eraseKey (⟨[("a", 0, 5), ("b", 1, 3)], 1, 2, 0, 0⟩ : SimpleCache ℕ).cache k) "c" 9 (0 + (⟨[("a", 0, 5), ("b", 1, 3)], 1, 2, 0, 0⟩ : SimpleCache ℕ).ttl) } ∧
        (eraseKey (⟨[("a", 0, 5), ("b", 1, 3)], 1, 2, 0, 0⟩ : SimpleCache ℕ).cache k).length + 1 = (⟨[("a", 0, 5), ("b", 1, 3)], 1, 2, 0, 0⟩ : SimpleCache ℕ).cache.length) ∧
     (∀ (c₂ : SimpleCache ℕ) (ops : List (CacheOp ℕ)),
        c₂.cache.length ≤ c₂.max_size →
        (runOps c₂ ops).cache.length ≤ c₂.max_size)) :=
  ⟨rfl, by decide,
   set_on_full_cache_evicts_min_expiry
     (⟨[("a", 0, 5), ("b", 1, 3)], 1, 2, 0, 0⟩ : SimpleCache ℕ)
     "c" 9 0 rfl (by decide)⟩

/-- C6: a `get` on a key whose entry has expired (`expiresAt ≤ now`) returns
`none`, removes the entry (the key no longer resolves), and the size reported
by `stats` drops by one, so the key no longer contributes to it. -/
theorem get_expired_removes_entry {V : Type} (c : SimpleCache V) (key : String)
    (now : ℚ) (v : V) (exp : ℚ)
    (hk : lookupEntry c.cache key = some (v, exp)) (hexp : exp ≤ now)
    (hnd : (c.cache.map (·.1)).Nodup) :
    (c.get key now).1 = none ∧
    lookupEntry ((c.get key now).2).cache key = none ∧
    ((c.get key now).2).stats.size + 1 = c.stats.size := by
  have hget : c.get key now
      = (none, { c with cache := eraseKey c.cache key,
                        misses := c.misses + 1 }) := by
    unfold SimpleCache.get
    rw [hk]
    dsimp only
    rw [if_neg (not_lt.mpr hexp)]
  have hs : (c.cache.find? (fun p => p.1 = key)).isSome := by
    cases hf : c.cache.find? (fun p => p.1 = key) with
    | none =>
        rw [lookupEntry, hf, Option.map_none'] at hk
        exact Option.noConfusion hk
    | some q => rfl
  refine ⟨by rw [hget], ?_, ?_⟩
  · rw [hget]
    exact lookupEntry_eraseKey_self c.cache key hnd
  · rw [hget]
    simpa [SimpleCache.stats] using length_eraseKey_add_one c.cache key hs

/-- C6 witness. -/
theorem get_expired_removes_entry_witness :
    (lookupEntry (⟨[("k", 7, 1)], 1, 100, 0, 0⟩ : SimpleCache ℕ).cache "k"
        = some (7, 1)) ∧
    ((1 : ℚ) ≤ 2) ∧
    (((⟨[("k", 7, 1)], 1, 100, 0, 0⟩ : SimpleCache ℕ).cache.map (·.1)).Nodup) ∧
    (((⟨[("k", 7, 1)], 1, 100, 0, 0⟩ : SimpleCache ℕ).get "k" 2).1 = none ∧
     lookupEntry (((⟨[("k", 7, 1)], 1, 100, 0, 0⟩
         : SimpleCache ℕ).get "k" 2).2).cache "k" = none ∧
     (((⟨[("k", 7, 1)], 1, 100, 0, 0⟩
         : SimpleCache ℕ).get "k" 2).2).stats.size + 1
       = (⟨[("k", 7, 1)], 1, 100, 0, 0⟩ : SimpleCache ℕ).stats.size) :=
  ⟨rfl, by decide, by decide,
   get_expired_removes_entry (⟨[("k", 7, 1)], 1, 100, 0, 0⟩ : SimpleCache ℕ)
     "k" 2 7 1 rfl (by decide) (by decide)⟩

lemma retryLoop_zero {σ E A : Type} (f : ℕ → σ → Except E A × σ)
    (delay : ℚ) (M a : ℕ) (s : σ) (last : Option E) (acc : List ℚ) :
    retryLoop f delay M 0 a s last acc = (.error last, s, a, acc.reverse) := rfl

lemma retryLoop_succ {σ E A : Type} (f : ℕ → σ → Except E A × σ)
    (delay : ℚ) (M r a : ℕ) (s : σ) (last : Option E) (acc : List ℚ) :
    retryLoop f delay M (r + 1) a s last acc
      = (match f a s with
         | (.ok x, s') => (.ok x, s', a + 1, acc.reverse)
         | (.error e, s') =>
             if a < M - 1 then
               retryLoop f delay M r (a + 1) s' (some e)
                 ((delay * ((a : ℚ) + 1)) :: acc)
             else retryLoop f delay M r (a + 1) s' (some e) acc) := rfl

lemma retryLoop_all_fail {σ E A : Type} (f : ℕ → σ → Except E A × σ)
    (g : ℕ → E) (delay : ℚ) (M : ℕ)
    (hf : ∀ i s, (f i s).1 = .error (g i)) :
    ∀ (r : ℕ), ∀ (a : ℕ) (s : σ) (last : Option E) (acc : List ℚ),
      a + r = M → 0 < r →
      ∃ s', retryLoop f delay M r a s last acc
        = (.error (some (g (M - 1))), s', M,
           acc.reverse
             ++ (List.range' a (r - 1)).map (fun k => delay * ((k : ℚ) + 1))) := by
  intro r
  induction r with
  | zero => intro a s last acc hM h0; omega
  | succ r' ih =>
      intro a s last acc hM _
      rcases hfa : f a s with ⟨fa, s₁⟩
      have hfa1 := hf a s
      rw [hfa] at hfa1
      dsimp only at hfa1
      subst hfa1
      by_cases hlt : a < M - 1
      · cases r' with
        | zero => omega
        | succ r'' =>
            obtain ⟨s', hs'⟩ := ih (a + 1) s₁ (some (g a))
              ((delay * ((a : ℚ) + 1)) :: acc) (by omega) (by omega)
            refine ⟨s', ?_⟩
            rw [retryLoop_succ, hfa]
            dsimp only
            rw [if_pos hlt, hs']
            have hr : List.range' a (r'' + 1 + 1 - 1)
                = a :: List.range' (a + 1) (r'' + 1 - 1) := rfl
            rw [hr]
            simp [List.reverse_cons, List.append_assoc]
      · have hr0 : r' = 0 := by omega
        have hM' : M = a + 1 := by omega
        subst hr0
        subst hM'
        refine ⟨s₁, ?_⟩
        rw [retryLoop_succ, hfa]
        dsimp only
        rw [if_neg hlt, retryLoop_zero]
        simp

lemma retryLoop_fail_then_ok {σ E A : Type} (f : ℕ → σ → Except E A × σ)
    (g : ℕ → E) (v : A) (delay : ℚ) (M : ℕ)
    (hf : ∀ i s, i < M - 1 → (f i s).1 = .error (g i))
    (hok : ∀ s, (f (M - 1) s).1 = .ok v) :
    ∀ (r : ℕ), ∀ (a : ℕ) (s : σ) (last : Option E) (acc : List ℚ),
      a + r = M → 0 < r →
      ∃ s', retryLoop f delay M r a s last acc
        = (.ok v, s', M,
           acc.reverse
             ++ (List.range' a (r - 1)).map (fun k => delay * ((k : ℚ) + 1))) := by
  intro r
  induction r with
  | zero => intro a s last acc hM h0; omega
  | succ r' ih =>
      intro a s last acc hM _
      rcases hfa : f a s with ⟨fa, s₁⟩
      by_cases hlt : a < M - 1
      · have hfa1 := hf a s hlt
        rw [hfa] at hfa1
        dsimp only at hfa1
        subst hfa1
        cases r' with
        | zero => omega
        | succ r'' =>
            obtain ⟨s', hs'⟩ := ih (a + 1) s₁ (some (g a))
              ((delay * ((a : ℚ) + 1)) :: acc) (by omega) (by omega)
            refine ⟨s', ?_⟩
            rw [retryLoop_succ, hfa]
            dsimp only
            rw [if_pos hlt, hs']
            have hr : List.range' a (r'' + 1 + 1 - 1)
                = a :: List.range' (a + 1) (r'' + 1 - 1) := rfl
            rw [hr]
            simp [List.reverse_cons, List.append_assoc]
      · have hr0 : r' = 0 := by omega
        have haM : a = M - 1 := by omega
        have hfa1 := hok s
        rw [← haM] at hfa1
        rw [hfa] at hfa1
        dsimp only at hfa1
        subst hfa1
        subst hr0
        have hM' : M = a + 1 := by omega
        subst hM'
        refine ⟨s₁, ?_⟩
        rw [retryLoop_succ, hfa]
        simp

/-- C4: under a retry policy `(maxAttempts, baseDelay)` (0 < maxAttempts),
a wrapped call that fails on the first `maxAttempts - 1` attempts and then
succeeds returns the success value after exactly `maxAttempts` attempts; a
call that always fails makes exactly `maxAttempts` attempts and surfaces the
last failure; in both runs the recorded back-off sleeps are
`baseDelay * k` after attempt `k` for `k = 1 .. maxAttempts - 1`, so only
attempts strictly below `maxAttempts` retry. -/
theorem retry_policy_behaviour {σ E A : Type} (M : ℕ) (delay : ℚ)
    (f : ℕ → σ → Except E A × σ) (g : ℕ → E) (v : A) (s : σ) (hM : 0 < M) :
    ((∀ i s', i < M - 1 → (f i s').1 = .error (g i)) →
      (∀ s', (f (M - 1) s').1 = .ok v) →
      ∃ s', retry_on_error M delay f s
        = (.ok v, s', M,
           (List.range (M - 1)).map (fun k => delay * ((k : ℚ) + 1)))) ∧
    ((∀ i s', (f i s').1 = .error (g i)) →
      ∃ s', retry_on_error M delay f s
        = (.error (some (g (M - 1))), s', M,
           (List.range (M - 1)).map (fun k => delay * ((k : ℚ) + 1)))) := by
  constructor
  · intro hf hok
    obtain ⟨s', hs'⟩ := retryLoop_fail_then_ok f g v delay M hf hok M 0 s none []
      (by omega) hM
    refine ⟨s', ?_⟩
    rw [retry_on_error, hs']
    simp [List.range_eq_range']
  · intro hf
    obtain ⟨s', hs'⟩ := retryLoop_all_fail f g delay M hf M 0 s none []
      (by omega) hM
    refine ⟨s', ?_⟩
    rw [retry_on_error, hs']
    simp [List.range_eq_range']

/-- C4 witness. -/
theorem retry_policy_behaviour_witness :
    (0 < 2) ∧
    (∃ s' : Unit,
      retry_on_error 2 1
          (fun i _ => (if i = 0 then (.error "e0") else (.ok 7), ())) ()
        = (.ok 7, s', 2,
           (List.range 1).map (fun k => (1 : ℚ) * ((k : ℚ) + 1)))) ∧
    (∃ s' : Unit,
      retry_on_error 2 1 (fun i _ => ((.error i : Except ℕ ℕ), ())) ()
        = (.error (some 1), s', 2,
           (List.range 1).map (fun k => (1 : ℚ) * ((k : ℚ) + 1)))) :=
  ⟨by decide,
   (retry_policy_behaviour 2 1
      (fun i _ => (if i = 0 then (.error "e0") else (.ok 7), ()))
      (fun _ => "e0") 7 () (by decide)).1
     (by
       intro i s' hi
       have hi0 : i = 0 := by omega
       subst hi0
       rfl)
     (fun _ => rfl),
   (retry_policy_behaviour 2 1 (fun i _ => ((.error i : Except ℕ ℕ), ()))
      (fun i => i) 0 () (by decide)).2
     (fun _ _ => rfl)⟩

/-- C3 (counterexample): the document analyzer returns an error — the
status-"error" dict that is its only error channel — yet the parallel stage
does NOT skip: the coordinator records `error := none`, both analyzers are
invoked, and neither branch receives the skip placeholder. -/
theorem parallel_stage_runs_both_on_error_status_reply :
    docErrorReplyCE.status = "error".toList ∧
    docStageCE.document_result = some (.ok docErrorReplyCE) ∧
    docStageCE.error = none ∧
    (run_parallel_agents_optimized (some (fun _ => .ok "L".toList))
        (some (fun _ => .ok "B".toList)) docStageCE).2
      = ["legal".toList, "business".toList] ∧
    (run_parallel_agents_optimized (some (fun _ => .ok "L".toList))
        (some (fun _ => .ok "B".toList)) docStageCE).1.legal_result
      ≠ skippedUpstream ∧
    (run_parallel_agents_optimized (some (fun _ => .ok "L".toList))
        (some (fun _ => .ok "B".toList)) docStageCE).1.business_result
      ≠ skippedUpstream := by
  decide

/-- C3 (amended): the parallel stage returns the skip placeholders for both
branches and invokes neither analyzer exactly when the document stage's
invocation *raised* an exception (recorded into `state.error`); when the
document analyzer *returns* an error — the status-"error" dict that is its
only error channel — the coordinator treats the reply as success
(`error := none`) and the parallel stage invokes both analyzers on the
summarised reply. -/
theorem parallel_stage_skip_only_on_raised_exception (cfg : ProcessingConfig)
    (jsonDumps : List (PyStr × PyStr) → PyStr)
    (docA : PyStr → Except PyStr DocAgentReply)
    (la ba : PyStr → Except PyStr PyStr) (input : PyStr) :
    (∀ e, docA (documentStageInput cfg (plan_workflow (initState input)))
        = .error e →
      run_parallel_agents_optimized (some la) (some ba)
          (run_document_agent_optimized cfg jsonDumps (some docA)
            (plan_workflow (initState input)))
        = ({ run_document_agent_optimized cfg jsonDumps (some docA) (plan_workflow (initState input)) with legal_result := skippedUpstream, business_result := skippedUpstream },
           [])) ∧
    (∀ reply, docA (documentStageInput cfg (plan_workflow (initState input)))
        = .ok reply →
      (run_document_agent_optimized cfg jsonDumps (some docA)
          (plan_workflow (initState input))).error = none ∧
      run_parallel_agents_optimized (some la) (some ba)
          (run_document_agent_optimized cfg jsonDumps (some docA)
            (plan_workflow (initState input)))
        = ({ run_document_agent_optimized cfg jsonDumps (some docA) (plan_workflow (initState input)) with legal_result := parallelBranchResult la (_extract_key_info_reply jsonDumps reply), business_result := parallelBranchResult ba (_extract_key_info_reply jsonDumps reply) },
           ["legal".toList, "business".toList])) := by
  constructor
  · intro e herr
    have h2 : (run_document_agent_optimized cfg jsonDumps (some docA)
        (plan_workflow (initState input))).error = some e := by
      simp only [run_document_agent_optimized]
      rw [herr]
    simp only [run_parallel_agents_optimized]
    rw [h2]
  · intro reply hok
    have hdoc : run_document_agent_optimized cfg jsonDumps (some docA)
        (plan_workflow (initState input))
        = { plan_workflow (initState input) with
              document_result := some (.ok reply)
              context_summary := _extract_key_info_reply jsonDumps reply
              error := none } := by
      simp only [run_document_agent_optimized]
      rw [hok]
    constructor
    · rw [hdoc]
    · rw [hdoc]
      simp only [run_parallel_agents_optimized]

/-- C3 (amended) witness. -/
theorem parallel_stage_skip_only_on_raised_exception_witness :
    (run_parallel_agents_optimized (some (fun _ => .ok "L".toList))
        (some (fun _ => .ok "B".toList))
        (run_document_agent_optimized defaultProcessingConfig
          (fun _ => "J".toList)
          (some (fun _ => .error "boom".toList))
          (plan_workflow (initState "abc".toList)))
      = ({ run_document_agent_optimized defaultProcessingConfig (fun _ => "J".toList) (some (fun _ => .error "boom".toList)) (plan_workflow (initState "abc".toList)) with legal_result := skippedUpstream, business_result := skippedUpstream },
         [])) ∧
    ((run_document_agent_optimized defaultProcessingConfig
        (fun _ => "J".toList) (some (fun _ => .ok docErrorReplyCE))
        (plan_workflow (initState "abc".toList))).error = none ∧
     run_parallel_agents_optimized (some (fun _ => .ok "L".toList))
        (some (fun _ => .ok "B".toList))
        (run_document_agent_optimized defaultProcessingConfig
          (fun _ => "J".toList) (some (fun _ => .ok docErrorReplyCE))
          (plan_workflow (initState "abc".toList)))
      = ({ run_document_agent_optimized defaultProcessingConfig (fun _ => "J".toList) (some (fun _ => .ok docErrorReplyCE)) (plan_workflow (initState "abc".toList)) with legal_result := parallelBranchResult (fun _ => .ok "L".toList) (_extract_key_info_reply (fun _ => "J".toList) docErrorReplyCE), business_result := parallelBranchResult (fun _ => .ok "B".toList) (_extract_key_info_reply (fun _ => "J".toList) docErrorReplyCE) },
         ["legal".toList, "business".toList])) :=
  ⟨(parallel_stage_skip_only_on_raised_exception defaultProcessingConfig
      (fun _ => "J".toList) (fun _ => .error "boom".toList)
      (fun _ => .ok "L".toList) (fun _ => .ok "B".toList)
      "abc".toList).1 "boom".toList rfl,
   (parallel_stage_skip_only_on_raised_exception defaultProcessingConfig
      (fun _ => "J".toList) (fun _ => .ok docErrorReplyCE)
      (fun _ => .ok "L".toList) (fun _ => .ok "B".toList)
      "abc".toList).2 docErrorReplyCE rfl⟩

lemma retry_first_ok {σ E A : Type} (M : ℕ) (delay : ℚ)
    (f : ℕ → σ → Except E A × σ) (s : σ) (x : A) (s' : σ)
    (hM : 0 < M) (h : f 0 s = (.ok x, s')) :
    retry_on_error M delay f s = (.ok x, s', 1, []) := by
  obtain ⟨M', rfl⟩ : ∃ M', M = M' + 1 := ⟨M - 1, by omega⟩
  rw [retry_on_error, retryLoop_succ, h]
  rfl

/-- C7 (amended): when caching is enabled and the cache holds an unexpired
*non-empty* value for the key derived from the payload, `call_llm` returns
that cached value immediately, after a single attempt, with no back-off
sleeps and without invoking the remote LLM (the invocation counter is
untouched; only the cache's hit counter moves, via `get`). -/
theorem call_llm_cache_hit_returns_cached (cfg : ProcessingConfig)
    (md5 : PyStr → String) (llm : ℕ → PyStr → Except PyStr PyStr)
    (msg : PyStr) (now : ℚ) (c : SimpleCache PyStr) (n : ℕ) (v : PyStr)
    (hv : (c.get (_generate_cache_key md5 msg none) now).1 = some v)
    (hne : v ≠ []) :
    call_llm cfg md5 llm msg true now ⟨some c, n⟩
      = (.ok v,
         ⟨some (c.get (_generate_cache_key md5 msg none) now).2, n⟩, 1, []) := by
  have hatt : call_llm_attempt cfg md5 llm msg true now 0 ⟨some c, n⟩
      = (.ok v, ⟨some (c.get (_generate_cache_key md5 msg none) now).2, n⟩) := by
    unfold call_llm_attempt
    dsimp only
    rcases hg : c.get (_generate_cache_key md5 msg none) now with ⟨r, c'⟩
    rw [hg] at hv
    dsimp only at hv
    subst hv
    dsimp only
    rw [if_pos hne]
  exact retry_first_ok 3 1 _ _ _ _ (by norm_num) hatt

/-- C7 (amended) witness. -/
theorem call_llm_cache_hit_returns_cached_witness :
    (((⟨[("k", "hi".toList, 10)], 1, 100, 0, 0⟩ : SimpleCache PyStr).get
        (_generate_cache_key (fun _ => "k") "m".toList none) 0).1
      = some "hi".toList) ∧
    ("hi".toList ≠ []) ∧
    call_llm defaultProcessingConfig (fun _ => "k") (fun _ _ => .ok [])
        "m".toList true 0
        ⟨some (⟨[("k", "hi".toList, 10)], 1, 100, 0, 0⟩ : SimpleCache PyStr), 0⟩
      = (.ok "hi".toList,
         ⟨some ((⟨[("k", "hi".toList, 10)], 1, 100, 0, 0⟩ : SimpleCache PyStr).get (_generate_cache_key (fun _ => "k") "m".toList none) 0).2, 0⟩,
         1, []) :=
  ⟨by decide, by decide,
   call_llm_cache_hit_returns_cached defaultProcessingConfig (fun _ => "k")
     (fun _ _ => .ok [])
     "m".toList 0 (⟨[("k", "hi".toList, 10)], 1, 100, 0, 0⟩ : SimpleCache PyStr)
     0 "hi".toList (by decide) (by decide)⟩

/-- C7 (counterexample): the cache holds an unexpired value for the key — the
empty string — yet `call_llm` does not return it: Python's
`if cached_result:` treats the falsy empty string as a miss, the remote LLM
is invoked (invocation count 1), and the remote result is returned instead
of the stored value. -/
theorem call_llm_empty_cached_value_invokes_remote :
    (lookupEntry (⟨[("k", ([] : PyStr), 10)], 1, 100, 0, 0⟩
        : SimpleCache PyStr).cache "k" = some ([], 10)) ∧
    ((0 : ℚ) < 10) ∧
    ((call_llm defaultProcessingConfig (fun _ => "k") (fun _ _ => .ok "R".toList)
        "m".toList true 0
        ⟨some (⟨[("k", ([] : PyStr), 10)], 1, 100, 0, 0⟩ : SimpleCache PyStr), 0⟩).2.1.llmCalls
      = 1) ∧
    ((call_llm defaultProcessingConfig (fun _ => "k") (fun _ _ => .ok "R".toList)
        "m".toList true 0
        ⟨some (⟨[("k", ([] : PyStr), 10)], 1, 100, 0, 0⟩ : SimpleCache PyStr), 0⟩).1
      = .ok "R".toList) := by
  refine ⟨by decide, by decide, ?_, ?_⟩ <;> decide

/-- C9: `process_text_message` never lets a failure of the underlying LLM
call escape: even when every attempt of the retried call fails (here: no
cache, an always-failing remote), the function still returns a string — the
error rendered behind 处理消息时发生错误： — after the three attempts of the
retry policy, instead of raising. -/
theorem process_text_message_renders_llm_failure (cfg : ProcessingConfig)
    (md5 : PyStr → String) (llm : ℕ → PyStr → Except PyStr PyStr)
    (err : ℕ → PyStr → PyStr) (user_text context : PyStr) (now : ℚ) (n : ℕ)
    (hlen : cfg.min_text_length ≤ user_text.length)
    (hllm : ∀ i m, llm i m = .error (err i m)) :
    process_text_message cfg md5 llm user_text context now ⟨none, n⟩
      = (processErrorPrefix
           ++ err 2 (processedMessage cfg (fullText user_text context)),
         ⟨none, n + 3⟩) := by
  have hatt : ∀ (i k : ℕ),
      call_llm_attempt cfg md5 llm (fullText user_text context) true now i
        ⟨none, k⟩
      = (.error (err i (processedMessage cfg (fullText user_text context))),
         ⟨none, k + 1⟩) := by
    intro i k
    unfold call_llm_attempt call_llm_remote
    dsimp only
    rw [hllm]
  have key : call_llm cfg md5 llm (fullText user_text context) true now ⟨none, n⟩
      = (.error (some (err 2 (processedMessage cfg (fullText user_text context)))),
         ⟨none, n + 3⟩, 3,
         [1 * ((0 : ℚ) + 1), 1 * ((1 : ℚ) + 1)]) := by
    show retryLoop
      (fun attempt s => call_llm_attempt cfg md5 llm
        (fullText user_text context) true now attempt s) 1 3 (2 + 1) 0
      ⟨none, n⟩ none [] = _
    rw [retryLoop_succ]
    try dsimp only
    rw [hatt 0 n]
    try dsimp only
    rw [if_pos (by norm_num)]
    show retryLoop _ 1 3 (1 + 1) 1 _ _ _ = _
    rw [retryLoop_succ]
    try dsimp only
    rw [hatt 1 (n + 1)]
    try dsimp only
    rw [if_pos (by norm_num)]
    show retryLoop _ 1 3 (0 + 1) 2 _ _ _ = _
    rw [retryLoop_succ]
    try dsimp only
    rw [hatt 2 (n + 1 + 1)]
    try dsimp only
    rw [if_neg (by norm_num), retryLoop_zero]
    rfl
  unfold process_text_message
  rw [if_neg (not_lt.mpr hlen)]
  rw [key]

/-- C9 witness. -/
theorem process_text_message_renders_llm_failure_witness :
    (defaultProcessingConfig.min_text_length
        ≤ ((List.replicate 60 'x')).length) ∧
    (∀ (i : ℕ) (m : PyStr),
      (fun (_ : ℕ) (_ : PyStr) =>
        (.error "boom".toList : Except PyStr PyStr)) i m
        = .error ((fun (_ : ℕ) (_ : PyStr) => "boom".toList) i m)) ∧
    process_text_message defaultProcessingConfig (fun _ => "")
        (fun _ _ => .error "boom".toList)
        (List.replicate 60 'x') [] 0 ⟨none, 0⟩
      = (processErrorPrefix
           ++ (fun (_ : ℕ) (_ : PyStr) => "boom".toList) 2
              (processedMessage defaultProcessingConfig
                (fullText (List.replicate 60 'x') [])),
         ⟨none, 0 + 3⟩) :=
  ⟨by decide, fun _ _ => rfl,
   process_text_message_renders_llm_failure defaultProcessingConfig
     (fun _ => "") (fun _ _ => .error "boom".toList)
     (fun _ _ => "boom".toList)
     (List.replicate 60 'x') [] 0 0
     (by decide) (fun _ _ => rfl)⟩

end ContractAI
